import Mathlib

/-!
Shallow embedding of the Quant-Project repository (src/quant/price/price_processing.py
and src/quant/backtest/metric.py) and verification of its specification claims.

Modelling conventions:
- A pandas DataFrame/Series indexed by dates is a `DF`: a list of integer dates
  (calendar-day numbers) plus a list of rows of rational values.
- Exact arithmetic: table entries and simple-return arithmetic use `ℚ`;
  statistics whose formulas need `sqrt`, `log`, `exp` or real powers use `ℝ`.
- A raised Python exception is `Except.error` with the exception name;
  a NaN result of an otherwise-returning call is `Option.none`.
-/

/-- A date-indexed table: dates paired positionally with rows of values.
Models a pandas DataFrame (or a Series, with one-element rows). -/
structure DF where
  dates : List ℤ
  rows : List (List ℚ)
deriving DecidableEq, Repr

/-- Model of `df.loc[a:b]` label slicing on a date index: keeps the rows whose
date lies in the closed interval `[a, b]`. -/
def locSlice (df : DF) (a b : ℤ) : DF :=
  let keep := (df.dates.zip df.rows).filter (fun p => a ≤ p.1 && p.1 ≤ b)
  ⟨keep.map (·.1), keep.map (·.2)⟩

/-- Model of `df.loc[d]` single-label row lookup: the first row carrying date `d`,
`none` when the label is absent (pandas raises `KeyError`). -/
def locRow (df : DF) (d : ℤ) : Option (List ℚ) :=
  ((df.dates.zip df.rows).find? (fun p => p.1 = d)).map (·.2)

/-- The rebalancing-interval loop of `calculate_portvals`
(src/quant/price/price_processing.py lines 132-148): for each consecutive pair
of schedule dates, slice the price table, rebase it to the row at the interval
start, multiply by the weight row in force at the interval start and by the
running cumulative value, and carry the last row-sum into the next interval.
An empty slice models the `IndexError` that `sub_price_df.iloc[0]` would raise;
a missing weight label models the `KeyError` from `weight_df.loc[prev_end_day]`. -/
def portvalsLoop (price weight : DF) : List ℤ → ℤ → ℚ → Except String (List DF)
  | [], _, _ => .ok []
  | end_day :: rest, prev, cum =>
    let sub := locSlice price prev end_day
    match sub.rows with
    | [] => .error "IndexError"
    | r0 :: rtail =>
      match locRow weight prev with
      | none => .error "KeyError"
      | some w =>
        let indiRows := (r0 :: rtail).map
          (fun r => (List.zipWith (· * ·) (List.zipWith (· / ·) r r0) w).map (· * cum))
        let cum2 := (indiRows.map List.sum).getLastD 0
        (portvalsLoop price weight rest end_day cum2).map (fun L => ⟨sub.dates, indiRows⟩ :: L)

/-- Model of `calculate_portvals(price_df, weight_df)`
(src/quant/price/price_processing.py lines 119-151): run the interval loop over
consecutive schedule dates, then fold the per-interval tables together, dropping
the first (boundary) row of every interval after the first, exactly as
`reduce(lambda x, y: pd.concat([x, y.iloc[1:]]), ...)` does.  An empty schedule
models the `IndexError` of `weight_df.index[0]`; a single-date schedule leaves
the interval list empty and models the `TypeError` that `reduce` raises on an
empty sequence. -/
def calculate_portvals (price weight : DF) : Except String DF :=
  match weight.dates with
  | [] => .error "IndexError"
  | w0 :: wrest =>
    match portvalsLoop price weight wrest w0 1 with
    | .error e => .error e
    | .ok [] => .error "TypeError"
    | .ok (d :: ds) =>
      .ok (ds.foldl (fun x y => ⟨x.dates ++ y.dates.drop 1, x.rows ++ y.rows.drop 1⟩) d)

/-- Running products with accumulator; `cumprodGo 1 l` models `l.cumprod()`. -/
def cumprodGo {α : Type} [Mul α] (acc : α) : List α → List α
  | [] => []
  | x :: xs => (acc * x) :: cumprodGo (acc * x) xs

/-- Model of pandas `Series.cumprod()`. -/
def cumprod {α : Type} [Mul α] [One α] (l : List α) : List α := cumprodGo 1 l

/-- Running sums with accumulator; `cumsumGo 0 l` models `l.cumsum()`. -/
def cumsumGo {α : Type} [Add α] (acc : α) : List α → List α
  | [] => []
  | x :: xs => (acc + x) :: cumsumGo (acc + x) xs

/-- Model of pandas `Series.cumsum()`. -/
def cumsum {α : Type} [Add α] [Zero α] (l : List α) : List α := cumsumGo 0 l

/-- Running maxima after the first element. -/
def cummaxGo {α : Type} [LinearOrder α] (m : α) : List α → List α
  | [] => []
  | x :: xs => max m x :: cummaxGo (max m x) xs

/-- Model of pandas `Series.cummax()`. -/
def cummax {α : Type} [LinearOrder α] : List α → List α
  | [] => []
  | x :: xs => x :: cummaxGo x xs

/-- Model of pandas `v.pct_change(N, fill_method=None)`: entry `i` is
`v[i]/v[i-N] - 1` when `i ≥ N` and NaN (`none`) before that. -/
def pct_change {α : Type} [DivisionRing α] (v : List α) (N : ℕ) : List (Option α) :=
  (List.range v.length).map (fun i =>
    if N ≤ i then some (v.getD i 0 / v.getD (i - N) 0 - 1) else none)

/-- Model of `get_daily_rets(individual_port_val_df, N, log)`
(src/quant/price/price_processing.py lines 154-175): sum the valuation table
across assets, take N-period simple returns (`pct_change`) or log returns
(`np.log(v / v.shift(N))`), drop the first `N-1` entries and fill the remaining
NaNs with 0. -/
noncomputable def get_daily_rets (df : DF) (N : ℕ) (log : Bool) : List ℝ :=
  let portval : List ℝ := df.rows.map (fun r => ((r.sum : ℚ) : ℝ))
  if log then
    (((List.range portval.length).map (fun i =>
        if N ≤ i then some (Real.log (portval.getD i 0 / portval.getD (i - N) 0)) else none)
      ).drop (N - 1)).map (fun o => o.getD 0)
  else
    ((pct_change portval N).drop (N - 1)).map (fun o => o.getD 0)

/-- Model of `get_cum_rets(daily_return_df, log)`
(src/quant/price/price_processing.py lines 178-197): `exp(cumsum(r))` in log
mode, `cumprod(1 + r)` in simple mode. -/
noncomputable def get_cum_rets (r : List ℝ) (log : Bool) : List ℝ :=
  if log then (cumsum r).map Real.exp else cumprod (r.map (1 + ·))

instance {ε α : Type} [DecidableEq ε] [DecidableEq α] : DecidableEq (Except ε α)
  | .error a, .error b =>
    if h : a = b then .isTrue (by rw [h]) else .isFalse (fun hh => h (by cases hh; rfl))
  | .error _, .ok _ => .isFalse (by intro h; cases h)
  | .ok _, .error _ => .isFalse (by intro h; cases h)
  | .ok a, .ok b =>
    if h : a = b then .isTrue (by rw [h]) else .isFalse (fun hh => h (by cases hh; rfl))

/-- Model of `Metric.drawdown(returns)` (src/quant/backtest/metric.py lines
328-339): `cum_rets = (1 + returns).cumprod()`, then
`cum_rets / cum_rets.cummax() - 1`. -/
def drawdown (rets : List ℚ) : List ℚ :=
  let cum_rets := cumprod (rets.map (1 + ·))
  List.zipWith (fun a b => a / b - 1) cum_rets (cummax cum_rets)

/-- Key-and-run-length accumulator modelling `itertools.groupby` over a Bool
sequence: `b` is the current key and `n` the length of the current run. -/
def groupRunsAux : Bool → ℕ → List Bool → List (Bool × ℕ)
  | b, n, [] => [(b, n)]
  | b, n, c :: rest => if c = b then groupRunsAux b (n + 1) rest else (b, n) :: groupRunsAux c 1 rest

/-- Model of `itertools.groupby` over a Bool sequence, as (key, run length) pairs. -/
def groupRuns : List Bool → List (Bool × ℕ)
  | [] => []
  | b :: rest => groupRunsAux b 1 rest

/-- One `groupby` group rendered as the drawdown-duration counting sequence:
`np.arange(len(j)) + 1` for an underwater (True) run, `[0]*len(j)` otherwise. -/
def encRun (p : Bool × ℕ) : List ℕ :=
  if p.1 then (List.range p.2).map (· + 1) else List.replicate p.2 0

/-- Model of the `ddur_count` list of `Metric.drawdown_duration`
(src/quant/backtest/metric.py line 354): run-length encode the underwater mask
and chain the per-run counting sequences. -/
def ddurCount (uw : List Bool) : List ℕ :=
  (groupRuns uw).flatMap encRun

/-- Model of `date.diff().dt.days.fillna(0).astype(int).cumsum()`
(src/quant/backtest/metric.py line 360): cumulative calendar-day gaps. -/
def cumdaysOf (dates : List ℤ) : List ℤ :=
  match dates with
  | [] => []
  | d0 :: rest => cumsum ((0 : ℤ) :: List.zipWith (· - ·) rest (d0 :: rest))

/-- Model of `.replace(0, np.nan).ffill().fillna(0)` applied to a column of
integers: a zero entry is treated as NaN and forward-filled with the last
non-zero value seen so far (`acc`, initially the `fillna` default 0). -/
def ffill0 (acc : ℤ) : List ℤ → List ℤ
  | [] => []
  | x :: rest =>
    let acc2 := if x = 0 then acc else x
    acc2 :: ffill0 acc2 rest

/-- Model of `Metric.drawdown_duration(returns)` (src/quant/backtest/metric.py
lines 341-363) on a return series carrying the date index `dates`:
run-length encode the nonzero-drawdown mask into `ddur_count`, build the
`count_0` at-water indicator, the `cumdays` cumulative day gaps, the
forward-filled baseline `(count_0 * cumdays).replace(0, nan).ffill().fillna(0)`,
and return `cumdays` minus the baseline. -/
def drawdown_duration (dates : List ℤ) (rets : List ℚ) : List ℤ :=
  let dd := drawdown rets
  let uw := dd.map (fun x => decide (x ≠ 0))
  let count_0 : List ℤ := (ddurCount uw).map (fun c => if 0 < c then 0 else 1)
  let cumdays := cumdaysOf dates
  let baseline := ffill0 0 (List.zipWith (· * ·) count_0 cumdays)
  List.zipWith (· - ·) cumdays baseline

/-- Specification-side drawdown duration, written from the spec's words: walking
the dated drawdown mask, an at-water timestamp (drawdown = 0) reports 0 and
becomes the new reference date; an underwater timestamp reports the number of
calendar days elapsed since the last at-water observation (the series start
when it has been underwater throughout). -/
def ddurSpecGo (lz : ℤ) : List (ℤ × Bool) → List ℤ
  | [] => []
  | (d, u) :: rest => if u then (d - lz) :: ddurSpecGo lz rest else 0 :: ddurSpecGo d rest

/-- Specification-side drawdown duration over a date index and a drawdown
series; underwater means drawdown ≠ 0. -/
def ddur_spec (dates : List ℤ) (dd : List ℚ) : List ℤ :=
  match dates with
  | [] => []
  | d0 :: _ => ddurSpecGo d0 (dates.zip (dd.map (fun x => decide (x ≠ 0))))

/-- The state of a `Metric` object (src/quant/backtest/metric.py lines 8-28):
the summed portfolio value series with its date index, and the annualization
scale `param` for the sampling frequency.  The stored return series `rets` is
derived below as in the constructor. -/
structure MetricState where
  dates : List ℤ
  values : List ℚ
  param : ℕ
deriving DecidableEq, Repr

/-- The stored return series of a `Metric`:
`self.portfolio.pct_change().fillna(0)` (src/quant/backtest/metric.py line 27). -/
def MetricState.rets (m : MetricState) : List ℚ :=
  (pct_change m.values 1).map (fun o => o.getD 0)

/-- Model of `Metric.MDD_duration(returns)` (src/quant/backtest/metric.py lines
370-381): the body calls `self.drawdown_duration()` with no argument, so the
`returns` override is accepted but ignored and the maximum is always taken over
the stored series' drawdown duration. `.max()` of an empty series is NaN
(`none`). -/
def MDD_duration (m : MetricState) (returnsArg : Option (List ℚ)) : Option ℤ :=
  let _ := returnsArg
  (drawdown_duration m.dates m.rets).max?

/-- Model of `Metric.total_returns(returns)` (src/quant/backtest/metric.py lines
386-387): the method is not decorated, so with the argument omitted the body
evaluates `(1 + None).prod()` and raises `TypeError`; with an override it
returns `(1 + returns).prod()`. -/
def total_returns (returnsArg : Option (List ℚ)) : Except String ℚ :=
  match returnsArg with
  | none => .error "TypeError"
  | some r => .ok ((r.map (1 + ·)).prod)

/-- Mean of a series, `Series.mean()`: sum divided by length. -/
noncomputable def meanR (l : List ℝ) : ℝ := l.sum / l.length

/-- Sample variance with pandas' default `ddof=1`. -/
noncomputable def varianceR (l : List ℝ) : ℝ :=
  (l.map (fun x => (x - meanR l) ^ 2)).sum / ((l.length : ℝ) - 1)

/-- Model of pandas `Series.std()` (sample standard deviation, `ddof=1`). -/
noncomputable def stdR (l : List ℝ) : ℝ := Real.sqrt (varianceR l)

/-- Model of `Metric.annualized_return(returns)` (src/quant/backtest/metric.py
lines 90-92): `returns.add(1).prod() ** (param / len(returns)) - 1`. -/
noncomputable def annualized_return (param : ℕ) (rets : List ℝ) : ℝ :=
  ((rets.map (1 + ·)).prod) ^ ((param : ℝ) / rets.length) - 1

/-- Model of `Metric.annualized_volatility(returns)` (src/quant/backtest/metric.py
lines 94-96): `returns.std() * np.sqrt(param)`. -/
noncomputable def annualized_volatility (param : ℕ) (rets : List ℝ) : ℝ :=
  stdR rets * Real.sqrt param

/-- The inner `downside_std` of `Metric.sortino_ratio`
(src/quant/backtest/metric.py lines 152-154): zero out every non-negative entry
of its working series in place, then `returns.std() * np.sqrt(param)`.  The
value computed is the standard deviation of the zeroed list times `sqrt param`;
the in-place mutation itself is modelled by `sortinoHeapRun` below. -/
noncomputable def downside_std (param : ℕ) (rets : List ℝ) : ℝ :=
  stdR (rets.map (fun x => if x ≥ 0 then 0 else x)) * Real.sqrt param

/-- Model of `Metric.sortino_ratio` in its non-rolling form
(src/quant/backtest/metric.py line 156):
`annualized_return(returns) - yearly_rfr / downside_std(returns)`, with
Python operator precedence binding the division first.  The source default for
`yearly_rfr` is 0.03. -/
noncomputable def sortino_ratio (param : ℕ) (rets : List ℝ) (yearly_rfr : ℝ) : ℝ :=
  annualized_return param rets - yearly_rfr / downside_std param rets

/-- The effective argument a decorated statistic body receives from the
`Metric.rolling` wrapper (src/quant/backtest/metric.py lines 55-73): the
resolved return series itself, or the `rets.rolling(lookback)` window object
when `rolling=True`. -/
inductive RetsArg : Type
  | ser : List ℝ → RetsArg
  | roll : ℕ → List ℝ → RetsArg

/-- A pandas result value: a scalar, or a Series whose entries may be NaN
(`none`). -/
inductive PdVal : Type
  | scalar : ℝ → PdVal
  | series : List (Option ℝ) → PdVal

/-- The trailing windows of `l.rolling(n)`: entry `i` is the window of the last
`n` observations ending at `i`, or NaN (`none`) while the window is not yet
full (pandas' default `min_periods = n`). -/
def rollingWindows {α : Type} (n : ℕ) (l : List α) : List (Option (List α)) :=
  (List.range l.length).map (fun i =>
    if n ≤ i + 1 then some ((l.take (i + 1)).drop (i + 1 - n)) else none)

/-- `Metric.annualized_return` applied to the argument the rolling wrapper
passes: on a plain series it is the scalar formula; on a `Rolling` object the
body's first step `returns.add(1)` raises, because pandas `Rolling` exposes no
element-wise `add` method. -/
noncomputable def annRetArg (param : ℕ) : RetsArg → Except String PdVal
  | .ser r => .ok (.scalar (annualized_return param r))
  | .roll _ _ => .error "AttributeError: rolling has no attribute add"

/-- `Metric.annualized_volatility` applied to the argument the rolling wrapper
passes: `returns.std()` is a supported `Rolling` method, so the rolling form is
the per-window standard deviation series times `sqrt param`. -/
noncomputable def annVolArg (param : ℕ) : RetsArg → Except String PdVal
  | .ser r => .ok (.scalar (annualized_volatility param r))
  | .roll n l => .ok (.series ((rollingWindows n l).map
      (fun w => w.map (fun v => stdR v * Real.sqrt param))))

/-- Element-wise subtraction of pandas values with scalar broadcasting and NaN
propagation. -/
noncomputable def pdSub : PdVal → PdVal → PdVal
  | .scalar a, .scalar b => .scalar (a - b)
  | .scalar a, .series l => .series (l.map (Option.map (a - ·)))
  | .series l, .scalar b => .series (l.map (Option.map (· - b)))
  | .series l, .series m => .series (List.zipWith (fun a b => a.bind (fun x => b.map (x - ·))) l m)

/-- Element-wise division of pandas values with scalar broadcasting and NaN
propagation. -/
noncomputable def pdDiv : PdVal → PdVal → PdVal
  | .scalar a, .scalar b => .scalar (a / b)
  | .scalar a, .series l => .series (l.map (Option.map (a / ·)))
  | .series l, .scalar b => .series (l.map (Option.map (· / b)))
  | .series l, .series m => .series (List.zipWith (fun a b => a.bind (fun x => b.map (x / ·))) l m)

/-- The rolling wrapper's final `result.fillna(0) if isinstance(result, pd.Series)
else result` (src/quant/backtest/metric.py line 72). -/
def pdFillna0 : PdVal → PdVal
  | .scalar x => .scalar x
  | .series l => .series (l.map (fun o => some (o.getD 0)))

/-- Model of `Metric.sharp_ratio` (src/quant/backtest/metric.py lines 98-124)
including its `rolling` decorator: resolve the override-or-stored series,
convert the lookback to periods (`lookback * param`), wrap the series in a
`Rolling` object when `rolling=True`, and evaluate
`(annualized_return(returns) - yearly_rfr) / annualized_volatility(returns)`,
filling NaNs with 0 in a Series result.  The source defaults are `lookback=1`
and `yearly_rfr=0.04`. -/
noncomputable def sharp_ratio (param : ℕ) (stored : List ℝ) (returnsArg : Option (List ℝ))
    (rolling : Bool) (lookback : ℕ) (yearly_rfr : ℝ) : Except String PdVal :=
  let rets := returnsArg.getD stored
  let lb := lookback * param
  let arg := if rolling then RetsArg.roll lb rets else RetsArg.ser rets
  ((annRetArg param arg).bind (fun a =>
    (annVolArg param arg).map (fun v => pdDiv (pdSub a (.scalar yearly_rfr)) v))).map pdFillna0

/-- Mean of a series as pandas computes it: NaN (`none`) on an empty series. -/
def meanOpt (l : List ℚ) : Option ℚ :=
  if l = [] then none else some (l.sum / l.length)

/-- Model of `Metric.VaR(returns, delta)` (src/quant/backtest/metric.py lines
194-196): `returns.quantile(delta)` with pandas' linear interpolation on the
sorted values; NaN (`none`) on an empty series. -/
def VaRq (rets : List ℚ) (delta : ℚ) : Option ℚ :=
  if rets = [] then none
  else
    let s := rets.mergeSort (fun a b => decide (a ≤ b))
    let pos := delta * ((s.length : ℚ) - 1)
    let f := ⌊pos⌋.toNat
    let g := pos - (f : ℚ)
    some (s.getD f 0 + g * (s.getD (f + 1) (s.getD f 0) - s.getD f 0))

/-- Model of `Metric.CVaR(returns, delta)` (src/quant/backtest/metric.py lines
226-228): `returns[returns <= VaR].mean()`.  When the quantile is NaN (empty
series) every comparison is False and the mean of the empty selection is NaN. -/
def CVaR (rets : List ℚ) (delta : ℚ) : Option ℚ :=
  match VaRq rets delta with
  | none => meanOpt []
  | some v => meanOpt (rets.filter (fun x => decide (x ≤ v)))

/-- Model of the non-rolling `Metric.hit_ratio` body
(src/quant/backtest/metric.py line 287):
`len(rets[rets > 0.0]) / len(rets[rets != 0.0])`.  Both lengths are Python
ints, so a zero denominator raises `ZeroDivisionError` instead of producing
NaN.  The `delta` keyword exists in the source signature but is unused. -/
def hit_ratio (rets : List ℚ) (delta : ℚ) : Except String ℚ :=
  let _ := delta
  let nz := rets.filter (fun x => decide (x ≠ 0))
  if nz.length = 0 then .error "ZeroDivisionError"
  else .ok (((rets.filter (fun x => decide (0 < x))).length : ℚ) / nz.length)

/-- Model of the non-rolling `Metric.GtP_ratio` body
(src/quant/backtest/metric.py line 315):
`rets[rets > 0.0].mean() / -rets[rets < 0.0].mean()`; a mean over an empty
selection is NaN and NaN propagates through the quotient.  The `delta` keyword
exists in the source signature but is unused. -/
def GtP_ratio (rets : List ℚ) (delta : ℚ) : Option ℚ :=
  let _ := delta
  match meanOpt (rets.filter (fun x => decide (0 < x))),
        meanOpt (rets.filter (fun x => decide (x < 0))) with
  | some p, some m => some (p / (-m))
  | _, _ => none

/-- Zeroing of the non-negative entries, the value-level effect of
`returns[returns >= 0] = 0` inside `sortino_ratio.downside_std`. -/
def zeroNonneg (r : List ℚ) : List ℚ := r.map (fun x => if 0 ≤ x then 0 else x)

/-- Heap model of one `sortino_ratio` call with respect to Python object
identity: the heap is a list of series cells and a reference is an index.  The
`rolling` wrapper copies the override-or-stored series into a fresh cell
(`rets = returns.copy()` / `self.rets.copy()`, src/quant/backtest/metric.py
lines 58-64); `annualized_return`'s own `external` wrapper copies that again
(lines 77-84); `downside_std` then mutates the first working copy in place
(`returns[returns >= 0] = 0`, line 153).  Returns the final heap and the
working copy's reference. -/
def sortinoHeapRun (heap : List (List ℚ)) (storedRef : ℕ) (override : Option ℕ) :
    List (List ℚ) × ℕ :=
  let src := match override with | none => storedRef | some r => r
  let base := heap.getD src []
  let h1 := heap ++ [base]
  let retsRef := heap.length
  let h2 := h1 ++ [h1.getD retsRef []]
  let h3 := h2.set retsRef (zeroNonneg (h2.getD retsRef []))
  (h3, retsRef)

/-- Single-pass form of `ddurCount`, used as a stepping stone: the accumulator
is the length of the underwater run so far. -/
def ddurCountSimple : List Bool → ℕ → List ℕ
  | [], _ => []
  | b :: rest, k => if b then (k + 1) :: ddurCountSimple rest (k + 1) else 0 :: ddurCountSimple rest 0

/- ------------------------------------------------------------------ -/
/- Helper lemmas                                                      -/
/- ------------------------------------------------------------------ -/

theorem groupRunsAux_flatMap_encRun (l : List Bool) : ∀ (b : Bool) (n : ℕ),
    (groupRunsAux b n l).flatMap encRun
      = encRun (b, n) ++ ddurCountSimple l (if b then n else 0) := by
  induction l with
  | nil => intro b n; simp [groupRunsAux, ddurCountSimple]
  | cons c rest ih =>
    intro b n
    by_cases hc : c = b
    · subst hc
      rw [groupRunsAux, if_pos rfl, ih]
      cases c with
      | true =>
        simp only [ddurCountSimple, if_pos rfl, encRun, List.range_succ]
        simp [List.append_assoc]
      | false =>
        simp only [ddurCountSimple, Bool.false_eq_true, if_neg, encRun]
        rw [List.replicate_succ' n (0 : ℕ)]
        simp [List.append_assoc, ddurCountSimple]
    · rw [groupRunsAux, if_neg hc]
      simp only [List.flatMap_cons, ih c 1]
      cases c with
      | true =>
        cases b with
        | true => exact absurd rfl hc
        | false => simp [ddurCountSimple, encRun, List.range_succ]
      | false =>
        cases b with
        | true => simp [ddurCountSimple, encRun]
        | false => exact absurd rfl hc

theorem ddurCount_eq_simple (uw : List Bool) : ddurCount uw = ddurCountSimple uw 0 := by
  cases uw with
  | nil => rfl
  | cons b rest =>
    rw [ddurCount, groupRuns, groupRunsAux_flatMap_encRun]
    cases b with
    | true => simp [encRun, ddurCountSimple, List.range_succ]
    | false => simp [encRun, ddurCountSimple]

theorem ddurCountSimple_map_indicator (uw : List Bool) : ∀ (k : ℕ),
    (ddurCountSimple uw k).map (fun c => if 0 < c then (0 : ℤ) else 1)
      = uw.map (fun b => if b then (0 : ℤ) else 1) := by
  induction uw with
  | nil => intro k; rfl
  | cons b rest ih =>
    intro k
    cases b with
    | true => simp [ddurCountSimple, ih]
    | false => simp [ddurCountSimple, ih]

theorem cumsumGo_zipWith_sub (l : List ℤ) : ∀ (p acc : ℤ),
    cumsumGo acc (List.zipWith (· - ·) l (p :: l)) = l.map (· - (p - acc)) := by
  induction l with
  | nil => intro p acc; rfl
  | cons x xs ih =>
    intro p acc
    simp only [List.zipWith_cons_cons, cumsumGo, ih x (acc + (x - p)), List.map_cons]
    refine List.cons_eq_cons.mpr ⟨by omega, ?_⟩
    apply List.map_congr_left
    intro a _
    omega

theorem cumdaysOf_map (d0 : ℤ) (rest : List ℤ) :
    cumdaysOf (d0 :: rest) = (d0 :: rest).map (· - d0) := by
  simp only [cumdaysOf, cumsum, cumsumGo, cumsumGo_zipWith_sub rest d0 (0 + 0), List.map_cons]
  refine List.cons_eq_cons.mpr ⟨by omega, ?_⟩
  apply List.map_congr_left
  intro a _
  omega

theorem ffill_pipeline (l : List (ℤ × Bool)) : ∀ (last lz d0 : ℤ), last = lz - d0 →
    (∀ p ∈ l, d0 < p.1) →
    List.zipWith (· - ·) (l.map (fun p => p.1 - d0))
      (ffill0 last (List.zipWith (· * ·)
        (l.map (fun p => if p.2 then (0 : ℤ) else 1)) (l.map (fun p => p.1 - d0))))
      = ddurSpecGo lz l := by
  induction l with
  | nil => intro last lz d0 _ _; rfl
  | cons du rest ih =>
    intro last lz d0 hlast hpos
    obtain ⟨d, u⟩ := du
    have hd : d0 < d := hpos (d, u) (List.mem_cons_self _ _)
    have hpos2 : ∀ p ∈ rest, d0 < p.1 := fun p hp => hpos p (List.mem_cons_of_mem _ hp)
    cases u with
    | true =>
      simp only [List.map_cons, List.zipWith_cons_cons, if_pos, zero_mul, ffill0, if_pos rfl,
        ddurSpecGo]
      refine List.cons_eq_cons.mpr ⟨by omega, ?_⟩
      exact ih last lz d0 hlast hpos2
    | false =>
      have hne : d - d0 ≠ 0 := by omega
      have hind : (if (false : Bool) = true then (0 : ℤ) else 1) = 1 := rfl
      simp only [List.map_cons, List.zipWith_cons_cons, hind, one_mul, ffill0, if_neg hne,
        ddurSpecGo, Bool.false_eq_true, if_false]
      refine List.cons_eq_cons.mpr ⟨by omega, ?_⟩
      exact ih (d - d0) d d0 rfl hpos2

theorem cumprodGo_length {α : Type} [Mul α] (l : List α) : ∀ (acc : α),
    (cumprodGo acc l).length = l.length := by
  induction l with
  | nil => intro acc; rfl
  | cons x xs ih => intro acc; simp [cumprodGo, ih]

theorem cummaxGo_length {α : Type} [LinearOrder α] (l : List α) : ∀ (m : α),
    (cummaxGo m l).length = l.length := by
  induction l with
  | nil => intro m; rfl
  | cons x xs ih => intro m; simp [cummaxGo, ih]

theorem cummax_length {α : Type} [LinearOrder α] (l : List α) : (cummax l).length = l.length := by
  cases l with
  | nil => rfl
  | cons x xs => simp [cummax, cummaxGo_length]

theorem drawdown_length (rets : List ℚ) : (drawdown rets).length = rets.length := by
  simp [drawdown, cumprod, List.length_zipWith, cumprodGo_length, cummax_length]

theorem ffill0_cons_zero (acc : ℤ) (l : List ℤ) : ffill0 acc (0 :: l) = acc :: ffill0 acc l := by
  simp [ffill0]

theorem getD_append_length {α : Type} (l1 : List α) (x : α) (rest : List α) (d : α) :
    (l1 ++ x :: rest).getD l1.length d = x := by
  induction l1 with
  | nil => rfl
  | cons a l ih =>
    rw [List.cons_append, List.length_cons, List.getD_cons_succ]
    exact ih

theorem set_append_length {α : Type} (l1 : List α) (x y : α) (rest : List α) :
    (l1 ++ x :: rest).set l1.length y = l1 ++ y :: rest := by
  induction l1 with
  | nil => rfl
  | cons a l ih =>
    rw [List.cons_append, List.length_cons, List.set_cons_succ, ih, List.cons_append]

theorem duration_pipeline_spec (d0 : ℤ) (drest : List ℤ) (uw : List Bool)
    (hlen : (d0 :: drest).length = uw.length) (hsorted : (d0 :: drest).Chain' (· < ·)) :
    List.zipWith (· - ·) (cumdaysOf (d0 :: drest))
      (ffill0 0 (List.zipWith (· * ·) (uw.map (fun b => if b then (0 : ℤ) else 1))
        (cumdaysOf (d0 :: drest))))
      = ddurSpecGo d0 ((d0 :: drest).zip uw) := by
  cases uw with
  | nil => simp at hlen
  | cons u0 uw2 =>
    have hlen2 : drest.length = uw2.length := by simpa using hlen
    have hpos : ∀ p ∈ drest.zip uw2, d0 < p.1 := by
      intro p hp
      have hmem : p.1 ∈ drest := (List.of_mem_zip (by rwa [← Prod.mk.eta (p := p)] at hp)).1
      have hpw := List.chain'_iff_pairwise.mp hsorted
      exact (List.pairwise_cons.mp hpw).1 p.1 hmem
    have hfst : drest.map (· - d0) = (drest.zip uw2).map (fun p => p.1 - d0) := by
      conv_lhs => rw [← List.map_fst_zip drest uw2 (le_of_eq hlen2)]
      rw [List.map_map]
      rfl
    have hsnd : uw2.map (fun b => if b then (0 : ℤ) else 1)
        = (drest.zip uw2).map (fun p => if p.2 then (0 : ℤ) else 1) := by
      conv_lhs => rw [← List.map_snd_zip drest uw2 (ge_of_eq hlen2)]
      rw [List.map_map]
      rfl
    have key := ffill_pipeline (drest.zip uw2) 0 d0 d0 (by omega) hpos
    rw [cumdaysOf_map]
    simp only [List.map_cons, List.zip_cons_cons, List.zipWith_cons_cons]
    have h0 : (if u0 = true then (0 : ℤ) else 1) * (d0 - d0) = 0 := by cases u0 <;> simp
    rw [h0, ffill0_cons_zero, List.zipWith_cons_cons, hfst, hsnd, key]
    simp only [ddurSpecGo]
    cases u0 with
    | true => simp
    | false => simp

/- ------------------------------------------------------------------ -/
/- Claim theorems                                                     -/
/- ------------------------------------------------------------------ -/

/-- C2: for every return series with a strictly increasing (possibly gapped)
date index, `drawdown_duration` reports at each timestamp the number of
calendar days the series has been continuously under water (drawdown ≠ 0) up
to and including that timestamp — measured as the calendar-day distance to the
last at-water observation (the series start when it has always been
underwater), i.e. accumulating calendar-day gaps between observations rather
than row counts — and resets to exactly 0 at every timestamp where drawdown
returns to 0. -/
theorem drawdown_duration_matches_spec (dates : List ℤ) (rets : List ℚ)
    (hlen : dates.length = rets.length) (hsorted : dates.Chain' (· < ·)) :
    drawdown_duration dates rets = ddur_spec dates (drawdown rets) := by
  cases dates with
  | nil => simp [drawdown_duration, ddur_spec, cumdaysOf]
  | cons d0 drest =>
    have hlenuw : (d0 :: drest).length = ((drawdown rets).map (fun x => decide (x ≠ 0))).length := by
      rw [List.length_map, drawdown_length, ← hlen]
    rw [drawdown_duration, ddur_spec, ddurCount_eq_simple, ddurCountSimple_map_indicator]
    exact duration_pipeline_spec d0 drest _ hlenuw hsorted

/-- Witness for C2 on an irregular, gapped date index: dates 0, 3, 7, 20 with
returns that put the series underwater on the middle two observations; the
reported durations are then 0, 3, 7, 0 — calendar-day distances, not row
counts, resetting to 0 on recovery. -/
theorem drawdown_duration_matches_spec_witness :
    ([0, 3, 7, 20] : List ℤ).Chain' (· < ·)
      ∧ drawdown_duration [0, 3, 7, 20] [0, -1/2, 1/2, 1/2]
          = ddur_spec [0, 3, 7, 20] (drawdown [0, -1/2, 1/2, 1/2]) :=
  ⟨by simp [List.chain'_cons], drawdown_duration_matches_spec [0, 3, 7, 20] [0, -1/2, 1/2, 1/2]
    rfl (by simp [List.chain'_cons])⟩

/-- C3: contrary to the claim, calling a rolling-capable ratio statistic with
`rolling=True` does not return a zero-padded rolling series for every method:
`sharp_ratio(rolling=True)` always raises, because its body hands the pandas
`Rolling` object to `annualized_return`, whose first step `returns.add(1)`
fails (`Rolling` has no element-wise `add`); `sortino_ratio` and
`calmar_ratio` fail the same way, while the methods built only from
`Rolling`-supported operations (`VaR_ratio`, `CVaR_ratio`, `hit_ratio`,
`GtP_ratio`) do return the described series.  This contradicts the source's
own docstrings and its `rolling_metric_report`, which call
`sharp_ratio(returns, rolling=True, ...)`. -/
theorem sharp_ratio_rolling_always_raises (param : ℕ) (stored : List ℝ)
    (returnsArg : Option (List ℝ)) (lookback : ℕ) (yearly_rfr : ℝ) :
    sharp_ratio param stored returnsArg true lookback yearly_rfr
      = Except.error "AttributeError: rolling has no attribute add" := rfl

/-- C4: for every return series and risk-free rate, the non-rolling Sortino
ratio is the quirk formula `annualized_return - (rfr / downside deviation)`
where the downside deviation is the standard deviation of the series with all
non-negative entries zeroed out, times `sqrt param` — the division binds
first, so this is not the textbook `(return - rfr) / downside deviation`; and
the source's default risk-free rate is `0.03 = 3/100`. -/
theorem sortino_ratio_quirk_formula (param : ℕ) (rets : List ℝ) (yearly_rfr : ℝ) :
    sortino_ratio param rets yearly_rfr
        = annualized_return param rets
          - (yearly_rfr / (stdR (rets.map (fun x => if x ≥ 0 then 0 else x)) * Real.sqrt param))
      ∧ sortino_ratio param rets (3 / 100)
        = annualized_return param rets - ((3 / 100) / downside_std param rets) :=
  ⟨rfl, rfl⟩

/-- C6 counterexample: the claim fails on both methods it names.  With stored
values [4,2,1,1] on dates 0..3 (stored drawdown duration maximum 3) and the
all-zero override series (whose drawdown duration is identically 0, maximum
0), `MDD_duration` still returns 3 — it is computed on the stored series, not
the supplied override; and `total_returns` with the argument omitted raises
`TypeError` instead of using the stored series. -/
theorem override_claim_counterexample :
    MDD_duration ⟨[0, 1, 2, 3], [4, 2, 1, 1], 252⟩ (some [0, 0, 0, 0]) = some 3
      ∧ (drawdown_duration [0, 1, 2, 3] [0, 0, 0, 0]).max? = some 0
      ∧ total_returns none = Except.error "TypeError" := by
  refine ⟨?_, ?_, rfl⟩
  · norm_num [MDD_duration, MetricState.rets, pct_change, List.range_succ, drawdown_duration,
      drawdown, cumprod, cumprodGo, cummax, cummaxGo, ddurCount, groupRuns, groupRunsAux,
      encRun, cumdaysOf, cumsum, cumsumGo, ffill0, List.flatMap, List.max?, List.foldl]
  · norm_num [drawdown_duration, drawdown, cumprod, cumprodGo, cummax, cummaxGo, ddurCount,
      groupRuns, groupRunsAux, encRun, cumdaysOf, cumsum, cumsumGo, ffill0, List.flatMap,
      List.max?, List.foldl]

/-- C6 amended: the decorated statistics use the override when supplied and the
stored series otherwise, but the two methods the claim singles out do not:
`MDD_duration` accepts and ignores its override, always evaluating the stored
series' drawdown duration, and `total_returns` has no default at all — it uses
a supplied override but raises `TypeError` when the argument is omitted. -/
theorem override_claim_amended (m : MetricState) (ovr : Option (List ℚ)) (r : List ℚ) :
    MDD_duration m ovr = (drawdown_duration m.dates m.rets).max?
      ∧ total_returns (some r) = Except.ok ((r.map (1 + ·)).prod)
      ∧ total_returns none = Except.error "TypeError" :=
  ⟨rfl, rfl, rfl⟩

/-- C7 counterexample: a schedule timestamp absent from the price index does
not make `calculate_portvals` fail.  With price rows on dates 0, 1, 3 and a
weight schedule on dates 0 and 2 (2 is not in the price index), the call
succeeds: `.loc` label slicing simply keeps the price rows inside the
interval, returning the valuation over dates 0 and 1. -/
theorem missing_schedule_date_no_error :
    (2 : ℤ) ∉ (DF.mk [0, 1, 3] [[100], [110], [121]]).dates
      ∧ (2 : ℤ) ∈ (DF.mk [0, 2] [[1], [1]]).dates
      ∧ calculate_portvals ⟨[0, 1, 3], [[100], [110], [121]]⟩ ⟨[0, 2], [[1], [1]]⟩
          = .ok ⟨[0, 1], [[1], [11/10]]⟩ := by
  refine ⟨by simp, by simp, ?_⟩
  norm_num [calculate_portvals, portvalsLoop, locSlice, locRow, List.filter, List.find?,
    Except.map, List.foldl]

/-- C7 amended: `calculate_portvals` does fail, eagerly at call time, for every
weight schedule with fewer than 2 timestamps (an empty schedule fails indexing
`weight_df.index[0]`, a one-date schedule leaves `reduce` with an empty
sequence); but a schedule timestamp missing from the price table's index
raises nothing — the interval is sliced by label range and the call only fails
if a sub-interval contains no price rows at all. -/
theorem insufficient_schedule_fails (price weight : DF) (h : weight.dates.length < 2) :
    ∃ e, calculate_portvals price weight = .error e := by
  match hw : weight.dates with
  | [] => exact ⟨"IndexError", by simp [calculate_portvals, hw]⟩
  | [w0] => exact ⟨"TypeError", by simp [calculate_portvals, hw, portvalsLoop]⟩
  | w0 :: w1 :: ws => rw [hw] at h; simp at h; omega

/-- Witness for C7's amended claim: a one-date schedule makes the call fail. -/
theorem insufficient_schedule_fails_witness :
    (DF.mk [0] [[1]]).dates.length < 2
      ∧ ∃ e, calculate_portvals ⟨[0], [[100]]⟩ ⟨[0], [[1]]⟩ = .error e :=
  ⟨by simp, insufficient_schedule_fails ⟨[0], [[100]]⟩ ⟨[0], [[1]]⟩ (by simp)⟩

/-- C8 counterexample: `hit_ratio` on a return series with no nonzero entries
does not produce not-a-number — both lengths in
`len(rets[rets > 0.0]) / len(rets[rets != 0.0])` are Python ints, so the call
raises `ZeroDivisionError`. -/
theorem hit_ratio_zero_division :
    hit_ratio [0] (1/100) = Except.error "ZeroDivisionError" := by
  norm_num [hit_ratio, List.filter]

/-- C8 amended: the NaN-not-crash policy holds for the gain-to-pain ratio (no
losing periods → NaN) and for CVaR (no returns at or below the VaR cutoff →
mean of an empty selection → NaN), but not for the hit ratio: with no nonzero
returns it raises `ZeroDivisionError` instead of returning NaN. -/
theorem undefined_denominator_policy :
    (∀ (rets : List ℚ) (delta : ℚ),
        rets.filter (fun x => decide (x < 0)) = [] → GtP_ratio rets delta = none)
      ∧ (∀ (rets : List ℚ) (delta : ℚ),
          (∀ v, VaRq rets delta = some v → rets.filter (fun x => decide (x ≤ v)) = []) →
          CVaR rets delta = none)
      ∧ (∀ (rets : List ℚ) (delta : ℚ),
          rets.filter (fun x => decide (x ≠ 0)) = [] →
          hit_ratio rets delta = Except.error "ZeroDivisionError") := by
  refine ⟨?_, ?_, ?_⟩
  · intro rets delta h
    rw [GtP_ratio, h]
    cases meanOpt (rets.filter (fun x => decide (0 < x))) <;> simp [meanOpt]
  · intro rets delta h
    rw [CVaR]
    cases hv : VaRq rets delta with
    | none => simp [meanOpt]
    | some v =>
      show meanOpt (rets.filter (fun x => decide (x ≤ v))) = none
      rw [h v hv]
      simp [meanOpt]
  · intro rets delta h
    simp only [hit_ratio]
    rw [h]
    simp

/-- Witness for C8's amended claim at concrete inputs: an all-gain series for
GtP, the empty series for CVaR, an all-zero series for the hit ratio. -/
theorem undefined_denominator_policy_witness :
    GtP_ratio [1] (1/100) = none ∧ CVaR [] (1/100) = none
      ∧ hit_ratio [0, 0] (1/100) = Except.error "ZeroDivisionError" :=
  ⟨undefined_denominator_policy.1 [1] (1/100) (by norm_num [List.filter]),
   undefined_denominator_policy.2.1 [] (1/100) (by intro v hv; simp [VaRq] at hv),
   undefined_denominator_policy.2.2 [0, 0] (1/100) (by norm_num [List.filter])⟩

/-- C9: one `sortino_ratio` call, viewed on the heap of series objects, leaves
every pre-existing cell — the stored return series, the caller's override, and
anything else — unchanged: the wrapper copies the override-or-stored series
into a fresh cell before use, and the in-place zeroing inside `downside_std`
hits only that fresh working copy (whose final contents are exactly the
non-negative-zeroed copy of the source series). -/
theorem sortino_mutates_only_working_copy (heap : List (List ℚ)) (storedRef : ℕ)
    (ovr : Option ℕ) (i : ℕ) (hi : i < heap.length) :
    ((sortinoHeapRun heap storedRef ovr).1)[i]? = heap[i]?
      ∧ ((sortinoHeapRun heap storedRef ovr).1)[heap.length]?
          = some (zeroNonneg (heap.getD (ovr.getD storedRef) [])) := by
  have hsrc : (match ovr with | none => storedRef | some r => r) = ovr.getD storedRef := by
    cases ovr <;> rfl
  set base := heap.getD (ovr.getD storedRef) [] with hbasedef
  have hbase : sortinoHeapRun heap storedRef ovr
      = (heap ++ [zeroNonneg base, base], heap.length) := by
    simp only [sortinoHeapRun, hsrc, ← hbasedef]
    rw [getD_append_length heap base [] []]
    rw [List.append_assoc, List.cons_append, List.nil_append]
    rw [getD_append_length heap base [base] []]
    rw [set_append_length heap base (zeroNonneg base) [base]]
  rw [hbase]
  constructor
  · exact List.getElem?_append_left hi
  · show (heap ++ [zeroNonneg base, base])[heap.length]? = some (zeroNonneg base)
    rw [List.getElem?_append_right (le_refl _)]
    simp

/-- Witness for C9: on a two-cell heap with an override reference, both
pre-existing cells are untouched and the fresh working cell holds the zeroed
copy of the override. -/
theorem sortino_mutates_only_working_copy_witness :
    ((sortinoHeapRun [[1, -1], [2, -3]] 0 (some 1)).1)[0]? = some ([1, -1] : List ℚ)
      ∧ ((sortinoHeapRun [[1, -1], [2, -3]] 0 (some 1)).1)[2]?
          = some (zeroNonneg (([[1, -1], [2, -3]] : List (List ℚ)).getD ((some 1).getD 0) [])) :=
  ⟨(sortino_mutates_only_working_copy [[1, -1], [2, -3]] 0 (some 1) 0 (by simp)).1,
   (sortino_mutates_only_working_copy [[1, -1], [2, -3]] 0 (some 1) 0 (by simp)).2⟩

theorem range_map_getD_eq_zipWith {α β γ : Type} (g : α → β → γ) (d1 : α) (d2 : β) :
    ∀ (l1 : List α) (l2 : List β), l1.length ≤ l2.length →
      (List.range l1.length).map (fun i => g (l1.getD i d1) (l2.getD i d2))
        = List.zipWith g l1 l2 := by
  intro l1
  induction l1 with
  | nil => intro l2 _; rfl
  | cons c cs ih =>
    intro l2 hlen
    cases l2 with
    | nil => simp at hlen
    | cons d ds =>
      rw [List.length_cons, List.range_succ_eq_map, List.map_cons, List.map_map,
        List.zipWith_cons_cons]
      refine List.cons_eq_cons.mpr ⟨rfl, ?_⟩
      exact ih ds (by simpa using hlen)

theorem pct_change_one_form (x : ℝ) (vs : List ℝ) :
    (pct_change (x :: vs) 1).map (fun o => o.getD 0)
      = 0 :: List.zipWith (fun cur prev => cur / prev - 1) vs (x :: vs) := by
  rw [pct_change, List.length_cons, List.range_succ_eq_map, List.map_cons, List.map_map,
    List.map_cons]
  refine List.cons_eq_cons.mpr ⟨by norm_num, ?_⟩
  have hform : (List.range vs.length).map
      ((fun i => if 1 ≤ i then some ((x :: vs).getD i 0 / (x :: vs).getD (i - 1) 0 - 1) else none)
        ∘ Nat.succ)
      = (List.range vs.length).map
        (fun i => some (vs.getD i 0 / (x :: vs).getD i 0 - 1)) := by
    apply List.map_congr_left
    intro i _
    simp [Nat.succ_le_succ]
  rw [hform]
  rw [range_map_getD_eq_zipWith (fun cur prev => some (cur / prev - 1)) 0 0 vs (x :: vs)
    (by simp)]
  rw [List.map_zipWith]
  simp

theorem log_rets_one_form (x : ℝ) (vs : List ℝ) :
    (((List.range (x :: vs).length).map (fun i =>
        if 1 ≤ i then some (Real.log ((x :: vs).getD i 0 / (x :: vs).getD (i - 1) 0)) else none)
      ).map (fun o => o.getD 0))
      = 0 :: List.zipWith (fun cur prev => Real.log (cur / prev)) vs (x :: vs) := by
  rw [List.length_cons, List.range_succ_eq_map, List.map_cons, List.map_map, List.map_cons]
  refine List.cons_eq_cons.mpr ⟨by norm_num, ?_⟩
  have hform : (List.range vs.length).map
      ((fun i => if 1 ≤ i then some (Real.log ((x :: vs).getD i 0 / (x :: vs).getD (i - 1) 0))
          else none) ∘ Nat.succ)
      = (List.range vs.length).map
        (fun i => some (Real.log (vs.getD i 0 / (x :: vs).getD i 0))) := by
    apply List.map_congr_left
    intro i _
    simp [Nat.succ_le_succ]
  rw [hform]
  rw [range_map_getD_eq_zipWith (fun cur prev => some (Real.log (cur / prev))) 0 0 vs (x :: vs)
    (by simp)]
  rw [List.map_zipWith]
  simp

theorem cumprodGo_ratio (vs : List ℝ) : ∀ (prev c : ℝ), prev ≠ 0 → (∀ y ∈ vs, y ≠ 0) →
    cumprodGo c ((List.zipWith (fun cur pr => cur / pr - 1) vs (prev :: vs)).map (1 + ·))
      = vs.map (· * (c / prev)) := by
  induction vs with
  | nil => intro prev c _ _; rfl
  | cons y ys ih =>
    intro prev c hprev hvs
    have hy : y ≠ 0 := hvs y (List.mem_cons_self _ _)
    rw [List.zipWith_cons_cons, List.map_cons, cumprodGo, List.map_cons]
    refine List.cons_eq_cons.mpr ⟨by field_simp; ring, ?_⟩
    rw [ih y (c * (1 + (y / prev - 1))) hy (fun z hz => hvs z (List.mem_cons_of_mem _ hz))]
    apply List.map_congr_left
    intro a _
    have : c * (1 + (y / prev - 1)) / y = c / prev := by
      field_simp
      ring
    rw [this]

theorem cumsumGo_logratio (vs : List ℝ) : ∀ (prev c : ℝ), 0 < prev → (∀ y ∈ vs, 0 < y) →
    (cumsumGo c (List.zipWith (fun cur pr => Real.log (cur / pr)) vs (prev :: vs))).map Real.exp
      = vs.map (· * (Real.exp c / prev)) := by
  induction vs with
  | nil => intro prev c _ _; rfl
  | cons y ys ih =>
    intro prev c hprev hvs
    have hy : 0 < y := hvs y (List.mem_cons_self _ _)
    rw [List.zipWith_cons_cons, cumsumGo, List.map_cons, List.map_cons]
    have hhead : Real.exp (c + Real.log (y / prev)) = y * (Real.exp c / prev) := by
      rw [Real.exp_add, Real.exp_log (by positivity)]
      field_simp
      ring
    refine List.cons_eq_cons.mpr ⟨hhead, ?_⟩
    rw [ih y (c + Real.log (y / prev)) hy (fun z hz => hvs z (List.mem_cons_of_mem _ hz))]
    apply List.map_congr_left
    intro a _
    rw [hhead]
    have : y * (Real.exp c / prev) / y = Real.exp c / prev := by
      field_simp
      ring
    rw [this]

theorem cum_simple_of_pct (x : ℝ) (vs : List ℝ) (hx : x ≠ 0) (hvs : ∀ y ∈ vs, y ≠ 0) :
    cumprod ((0 :: List.zipWith (fun cur prev => cur / prev - 1) vs (x :: vs)).map (1 + ·))
      = (x :: vs).map (· / x) := by
  rw [List.map_cons, cumprod, cumprodGo]
  have h1 : (1 : ℝ) * (1 + 0) = 1 := by norm_num
  rw [h1, cumprodGo_ratio vs x 1 hx hvs, List.map_cons]
  refine List.cons_eq_cons.mpr ⟨by rw [div_self hx], ?_⟩
  apply List.map_congr_left
  intro a _
  rw [mul_one_div]

theorem cum_log_of_rets (x : ℝ) (vs : List ℝ) (hx : 0 < x) (hvs : ∀ y ∈ vs, 0 < y) :
    (cumsum (0 :: List.zipWith (fun cur prev => Real.log (cur / prev)) vs (x :: vs))).map Real.exp
      = (x :: vs).map (· / x) := by
  rw [cumsum, cumsumGo, List.map_cons]
  have h0 : (0 : ℝ) + 0 = 0 := by norm_num
  rw [h0, cumsumGo_logratio vs x 0 hx hvs, List.map_cons]
  refine List.cons_eq_cons.mpr ⟨by rw [Real.exp_zero, div_self (ne_of_gt hx)], ?_⟩
  apply List.map_congr_left
  intro a _
  rw [Real.exp_zero, one_div, div_eq_mul_inv]

/-- C5: round-trip — for every valuation table whose per-date total values are
positive, `get_cum_rets` of `get_daily_rets` (with `N = 1`) reproduces the
summed cumulative value series divided by its initial value, in simple mode
(`Π(1+r)`) and in log mode (`exp(cumsum(r))`) alike. -/
theorem cum_rets_roundtrip (df : DF) (hpos : ∀ r ∈ df.rows, 0 < r.sum) :
    get_cum_rets (get_daily_rets df 1 false) false
        = (df.rows.map (fun r => ((r.sum : ℚ) : ℝ))).map
            (· / ((df.rows.map (fun r => ((r.sum : ℚ) : ℝ))).headD 1))
      ∧ get_cum_rets (get_daily_rets df 1 true) true
        = (df.rows.map (fun r => ((r.sum : ℚ) : ℝ))).map
            (· / ((df.rows.map (fun r => ((r.sum : ℚ) : ℝ))).headD 1)) := by
  set v : List ℝ := df.rows.map (fun r => ((r.sum : ℚ) : ℝ)) with hv
  have hvpos : ∀ y ∈ v, 0 < y := by
    intro y hy
    rw [hv] at hy
    obtain ⟨r, hr, rfl⟩ := List.mem_map.mp hy
    exact_mod_cast hpos r hr
  have hsimple : get_daily_rets df 1 false = (pct_change v 1).map (fun o => o.getD 0) := by
    simp only [get_daily_rets, Bool.false_eq_true, if_false, ← hv, Nat.sub_self, List.drop_zero]
  have hlog : get_daily_rets df 1 true
      = ((List.range v.length).map (fun i =>
          if 1 ≤ i then some (Real.log (v.getD i 0 / v.getD (i - 1) 0)) else none)
        ).map (fun o => o.getD 0) := by
    simp only [get_daily_rets, if_true, ← hv, Nat.sub_self, List.drop_zero]
  cases hvv : v with
  | nil =>
    rw [hsimple, hlog, hvv]
    constructor
    · simp [pct_change, get_cum_rets, cumprod, cumprodGo]
    · simp [get_cum_rets, cumsum, cumsumGo]
  | cons x vs =>
    have hx : 0 < x := hvpos x (by rw [hvv]; exact List.mem_cons_self _ _)
    have hvspos : ∀ y ∈ vs, 0 < y := fun y hy => hvpos y (by rw [hvv]; exact List.mem_cons_of_mem _ hy)
    constructor
    · rw [hsimple, hvv, pct_change_one_form]
      show cumprod ((0 :: List.zipWith (fun cur prev => cur / prev - 1) vs (x :: vs)).map (1 + ·))
        = (x :: vs).map (· / (x :: vs).headD 1)
      rw [List.headD_cons]
      exact cum_simple_of_pct x vs (ne_of_gt hx) (fun y hy => ne_of_gt (hvspos y hy))
    · rw [hlog, hvv, log_rets_one_form]
      show (cumsum (0 :: List.zipWith (fun cur prev => Real.log (cur / prev)) vs (x :: vs))).map
          Real.exp = (x :: vs).map (· / (x :: vs).headD 1)
      rw [List.headD_cons]
      exact cum_log_of_rets x vs hx hvspos

/-- Witness for C5 on the two-row valuation table with totals 1 and 2: both
round-trips reproduce the normalized series. -/
theorem cum_rets_roundtrip_witness :
    (∀ r ∈ (DF.mk [0, 1] [[1], [2]]).rows, 0 < r.sum)
      ∧ (get_cum_rets (get_daily_rets ⟨[0, 1], [[1], [2]]⟩ 1 false) false
          = ((DF.mk [0, 1] [[1], [2]]).rows.map (fun r => ((r.sum : ℚ) : ℝ))).map
              (· / (((DF.mk [0, 1] [[1], [2]]).rows.map (fun r => ((r.sum : ℚ) : ℝ))).headD 1))
        ∧ get_cum_rets (get_daily_rets ⟨[0, 1], [[1], [2]]⟩ 1 true) true
          = ((DF.mk [0, 1] [[1], [2]]).rows.map (fun r => ((r.sum : ℚ) : ℝ))).map
              (· / (((DF.mk [0, 1] [[1], [2]]).rows.map (fun r => ((r.sum : ℚ) : ℝ))).headD 1))) :=
  ⟨by norm_num, cum_rets_roundtrip ⟨[0, 1], [[1], [2]]⟩ (by norm_num)⟩

/-- C1 counterexample: with prices [100, 110, 99, 121] on days 0..3 and weight
1.0 scheduled on day 0 and day 2, `calculate_portvals` returns a table over
days 0..2 only, with values [1, 1.1, 0.99] — not a table spanning all 4 days
with values [1, 1.1, 0.99, 1.21] as the claim states: the loop only covers the
closed interval between consecutive schedule dates, and day 3 lies after the
last schedule date. -/
theorem portvals_example_counterexample :
    calculate_portvals ⟨[0, 1, 2, 3], [[100], [110], [99], [121]]⟩ ⟨[0, 2], [[1], [1]]⟩
        = .ok ⟨[0, 1, 2], [[1], [11/10], [99/100]]⟩
      ∧ calculate_portvals ⟨[0, 1, 2, 3], [[100], [110], [99], [121]]⟩ ⟨[0, 2], [[1], [1]]⟩
        ≠ .ok ⟨[0, 1, 2, 3], [[1], [11/10], [99/100], [121/100]]⟩ := by
  have h : calculate_portvals ⟨[0, 1, 2, 3], [[100], [110], [99], [121]]⟩ ⟨[0, 2], [[1], [1]]⟩
      = .ok ⟨[0, 1, 2], [[1], [11/10], [99/100]]⟩ := by
    norm_num [calculate_portvals, portvalsLoop, locSlice, locRow, List.filter, List.find?,
      Except.map, List.foldl]
  refine ⟨h, ?_⟩
  rw [h]
  intro hcontra
  have hdf := Except.ok.inj hcontra
  have hdates := congrArg DF.dates hdf
  simp at hdates

/-- C1 amended: with weight 1.0 scheduled on day 0 and day 2, the valuation
table spans days 0..2 with values [1, 1.1, 0.99], daily simple returns
[0, 0.10, -0.10] and cumulative returns [1, 1.1, 0.99]; the full normalized
price path [1, 1.1, 0.99, 1.21] (with daily returns [0, 0.10, -0.10, 0.222...]
and matching cumulative returns) is obtained when the schedule's second date is
the last day, day 3. -/
theorem portvals_example_amended :
    calculate_portvals ⟨[0, 1, 2, 3], [[100], [110], [99], [121]]⟩ ⟨[0, 2], [[1], [1]]⟩
        = .ok ⟨[0, 1, 2], [[1], [11/10], [99/100]]⟩
      ∧ get_daily_rets ⟨[0, 1, 2], [[1], [11/10], [99/100]]⟩ 1 false = [0, 1/10, -1/10]
      ∧ get_cum_rets [0, 1/10, -1/10] false = [1, 11/10, 99/100]
      ∧ calculate_portvals ⟨[0, 1, 2, 3], [[100], [110], [99], [121]]⟩ ⟨[0, 3], [[1], [1]]⟩
        = .ok ⟨[0, 1, 2, 3], [[1], [11/10], [99/100], [121/100]]⟩
      ∧ get_daily_rets ⟨[0, 1, 2, 3], [[1], [11/10], [99/100], [121/100]]⟩ 1 false
        = [0, 1/10, -1/10, 2/9]
      ∧ get_cum_rets [0, 1/10, -1/10, 2/9] false = [1, 11/10, 99/100, 121/100] := by
  refine ⟨?_, ?_, ?_, ?_, ?_, ?_⟩
  · norm_num [calculate_portvals, portvalsLoop, locSlice, locRow, List.filter, List.find?,
      Except.map, List.foldl]
  · norm_num [get_daily_rets, pct_change, List.range_succ]
  · norm_num [get_cum_rets, cumprod, cumprodGo]
  · norm_num [calculate_portvals, portvalsLoop, locSlice, locRow, List.filter, List.find?,
      Except.map, List.foldl]
  · norm_num [get_daily_rets, pct_change, List.range_succ]
  · norm_num [get_cum_rets, cumprod, cumprodGo]

theorem rebased_first_row (r : List ℚ) : ∀ (w : List ℚ), r.length = w.length →
    (∀ x ∈ r, x ≠ 0) →
    (List.zipWith (· * ·) (List.zipWith (· / ·) r r) w).map (· * 1) = w := by
  induction r with
  | nil =>
    intro w hlen _
    cases w with
    | nil => rfl
    | cons b bs => simp at hlen
  | cons a as ih =>
    intro w hlen hnz
    cases w with
    | nil => simp at hlen
    | cons b bs =>
      simp only [List.zipWith_cons_cons, List.map_cons]
      refine List.cons_eq_cons.mpr ⟨?_, ?_⟩
      · rw [div_self (hnz a (List.mem_cons_self _ _)), one_mul, mul_one]
      · exact ih bs (by simpa using hlen) (fun x hx => hnz x (List.mem_cons_of_mem _ hx))

theorem foldl_concat_head (L : List DF) : ∀ (x : DF), x.rows ≠ [] →
    ((L.foldl (fun a y => ⟨a.dates ++ y.dates.drop 1, a.rows ++ y.rows.drop 1⟩) x).rows).head?
      = x.rows.head? := by
  induction L with
  | nil => intro x _; rfl
  | cons y ys ih =>
    intro x hx
    rw [List.foldl_cons]
    have hne : (DF.mk (x.dates ++ y.dates.drop 1) (x.rows ++ y.rows.drop 1)).rows ≠ [] := by
      simp only []
      intro hcontra
      exact hx (List.append_eq_nil.mp hcontra).1
    rw [ih _ hne]
    cases hxr : x.rows with
    | nil => exact absurd hxr hx
    | cons r rs => simp [hxr]

/-- C10: for every accepted call (one whose result is `.ok`), the first row of
the valuation table returned by `calculate_portvals` equals the first row of
target weights exactly, so the initial total portfolio value is the sum of the
first weight row — which is 1 only when those weights sum to 1.  The
hypotheses spell out the shape the source relies on: at least two schedule
dates, a non-empty first price slice whose first row has no zero prices, and a
weight row of matching width. -/
theorem portvals_first_row_is_weights (price weight : DF) (out : DF)
    (d0 d1 : ℤ) (wrest : List ℤ) (hw : weight.dates = d0 :: d1 :: wrest)
    (r0 : List ℚ) (rtail : List (List ℚ)) (hs : (locSlice price d0 d1).rows = r0 :: rtail)
    (w0 : List ℚ) (hw0 : locRow weight d0 = some w0)
    (hlen : r0.length = w0.length) (hnz : ∀ x ∈ r0, x ≠ 0)
    (hok : calculate_portvals price weight = .ok out) :
    out.rows.head? = some w0 ∧ (out.rows.map List.sum).head? = some w0.sum := by
  have hfirst : portvalsLoop price weight (d1 :: wrest) d0 1
      = (portvalsLoop price weight wrest d1
          ((((r0 :: rtail).map (fun r =>
              (List.zipWith (· * ·) (List.zipWith (· / ·) r r0) w0).map (· * 1))).map
            List.sum).getLastD 0)).map
        (fun L => (⟨(locSlice price d0 d1).dates,
            (r0 :: rtail).map (fun r =>
              (List.zipWith (· * ·) (List.zipWith (· / ·) r r0) w0).map (· * 1))⟩ : DF) :: L) := by
    simp only [portvalsLoop, hs, hw0]
  unfold calculate_portvals at hok
  rw [hw] at hok
  simp only [] at hok
  rw [hfirst] at hok
  cases hrec : portvalsLoop price weight wrest d1
      ((((r0 :: rtail).map (fun r =>
          (List.zipWith (· * ·) (List.zipWith (· / ·) r r0) w0).map (· * 1))).map
        List.sum).getLastD 0) with
  | error e => rw [hrec] at hok; simp [Except.map] at hok
  | ok L =>
    rw [hrec] at hok
    simp only [Except.map] at hok
    have hout := Except.ok.inj hok
    have hhead : out.rows.head? = some w0 := by
      rw [← hout]
      rw [foldl_concat_head L _ (by simp)]
      simp only [List.map_cons, List.head?_cons]
      rw [rebased_first_row r0 w0 hlen hnz]
    exact ⟨hhead, by rw [List.head?_map, hhead]; rfl⟩

/-- Witness for C10: prices [2], [4] on days 0 and 1, one rebalancing interval
with weight row [3/4] (not summing to 1): the first output row is exactly
[3/4] and the initial total value is 3/4. -/
theorem portvals_first_row_is_weights_witness :
    calculate_portvals ⟨[0, 1], [[2], [4]]⟩ ⟨[0, 1], [[3/4], [3/4]]⟩
        = .ok ⟨[0, 1], [[3/4], [3/2]]⟩
      ∧ (DF.mk [0, 1] [[3/4], [3/2]]).rows.head? = some [3/4]
      ∧ ((DF.mk [0, 1] [[3/4], [3/2]]).rows.map List.sum).head? = some (List.sum [3/4]) := by
  have hok : calculate_portvals ⟨[0, 1], [[2], [4]]⟩ ⟨[0, 1], [[3/4], [3/4]]⟩
      = .ok ⟨[0, 1], [[3/4], [3/2]]⟩ := by
    norm_num [calculate_portvals, portvalsLoop, locSlice, locRow, List.filter, List.find?,
      Except.map, List.foldl]
  refine ⟨hok, ?_⟩
  have := portvals_first_row_is_weights ⟨[0, 1], [[2], [4]]⟩ ⟨[0, 1], [[3/4], [3/4]]⟩
    ⟨[0, 1], [[3/4], [3/2]]⟩ 0 1 [] rfl [2] [[4]] rfl [3/4] rfl (by norm_num)
    (by norm_num) hok
  exact this
